import Mathlib

/-!
Verification development for the docuhide export pipeline
(`dump_all.py`, `dump.py`): a shallow embedding of the record
extractor, tree builder, tree walker and batch materialization loop,
together with theorems about the claims of the specification.

Modelling conventions:
* Python dicts keyed by id are association lists (`List (String × α)`)
  with insertion-order semantics: assignment to an existing key updates
  in place, a new key is appended (`updList`).
* Python `set` objects (`Tree.roots`, `TreeWalker.seen`) are duplicate-free
  lists; only membership and insertion/removal are used, so the list order
  is a deterministic refinement of the hash order.
* A dict record is a structure whose fields are `Option`-wrapped: `none`
  means the key is absent (so that a `KeyError` on access is observable);
  a present key whose Python value is `None` is `some none` in fields of
  type `Option (Option _)`.
* XML parsing is out of scope (per the spec): `Element` is the
  attribute/property model that `xml.etree` yields, and the composite
  `datetime.strptime`/`total_seconds` date conversion is a parameter
  `pd : String → Option Int` (`none` models a `ValueError`).
* Exceptions are `Except Err` / an `Option Err` component; generator
  semantics keep the prefix of yields produced before an exception.
-/

/-- Exception kinds raised by the scripts (modelled abstractly). -/
inductive Err where
  | key
  | attr
  | typeErr
  | valueErr
  | noVersions
  | noPreferredVersion
  | noMatchingVersion
  | noRendition
  | tooManyRenditions
  | noProps
  | noUsername
  | newType
  deriving Repr, DecidableEq

/-- Python value of the `size` slot of a detailed Document: the initial
int `-1` or the raw text of a `size` property. -/
inductive SizeVal where
  | negOne
  | fromText (s : String)
  deriving Repr, DecidableEq

/-- A record of the Record Model: one value of the `documents` dict built by
`get_documents` in `dump_all.py`. Fields are `Option`s because the Python
dicts carry different keys per record kind. -/
structure PyDoc where
  type_ : String
  title : Option String := none
  owner : Option (Option String) := none
  private_ : Option Bool := none
  sort_order : Option String := none
  children : Option (List String) := none
  url : Option String := none
  size : Option SizeVal := none
  filename : Option (Option String) := none
  original_file_name : Option (Option String) := none
  date : Option (Option Int) := none
  username : Option String := none
  deriving Repr, DecidableEq

/-- One `<prop name=...>text</prop>` entry. -/
structure XmlProp where
  name : String
  text : String
  deriving Repr, DecidableEq

/-- One ACL entry: principal plus its permission string. -/
structure Acl where
  principal : String
  permissions : String
  deriving Repr, DecidableEq

/-- One `<contentelement filename=...>label</contentelement>`. -/
structure ContentElem where
  filename : String
  text : String
  deriving Repr, DecidableEq

/-- One rendition object: its `props` child (absent ⇒ `TypeError` when
iterated) and its content elements. -/
structure Rendition where
  props : Option (List XmlProp)
  contentelements : List ContentElem
  deriving Repr, DecidableEq

/-- One version object under `<versions>`. -/
structure VersionObj where
  handle : String
  renditions : List Rendition
  deriving Repr, DecidableEq

/-- A parsed top-level child of the export XML, as `get_documents` reads it:
`classname`/`handle` attributes, the `props` and `acls` children (absent ⇒
`None` in Python) and the texts of the destination links. An owner link's
text may itself be `None`. -/
structure Element where
  classname : Option String
  handle : String
  props : Option (List XmlProp)
  acls : Option (List Acl)
  ownerLinks : List (Option String)
  containment : List String
  preferredVersion : List String
  versions : Option (List VersionObj)
  deriving Repr, DecidableEq

/-- Association-list lookup, Python `d[k]` / `k in d`. -/
def lookupList {α : Type} : List (String × α) → String → Option α
  | [], _ => none
  | (k, v) :: rest, key => if k = key then some v else lookupList rest key

/-- Association-list assignment, Python `d[k] = v`: updates in place or
appends, preserving dict insertion order. -/
def updList {α : Type} : List (String × α) → String → α → List (String × α)
  | [], k, v => [(k, v)]
  | (k0, v0) :: rest, k, v => if k0 = k then (k, v) :: rest else (k0, v0) :: updList rest k v

/-- Character-list comparison used for the substring test: does the first
list start the second? -/
def chPref : List Char → List Char → Bool
  | [], _ => true
  | _ :: _, [] => false
  | a :: as, b :: bs => a = b && chPref as bs

/-- Substring test on character lists (Python `needle in haystack`). -/
def chSub (needle : List Char) : List Char → Bool
  | [] => chPref needle []
  | h :: t => chPref needle (h :: t) || chSub needle t

/-- Code-point lexicographic comparison of character lists: the semantics of
Python string `<`. -/
def chLt : List Char → List Char → Bool
  | [], [] => false
  | [], _ :: _ => true
  | _ :: _, [] => false
  | a :: as, b :: bs => if a < b then true else if a = b then chLt as bs else false

/-- Python string `<` on the underlying code points. -/
def strLtB (a b : String) : Bool := chLt a.data b.data

/-- Removal of leading and trailing whitespace characters: the semantics of
Python `str.strip()` (restricted to the ASCII whitespace set). -/
def chTrim (l : List Char) : List Char :=
  ((l.dropWhile Char.isWhitespace).reverse.dropWhile Char.isWhitespace).reverse

/-- Python `str.strip()`. -/
def strTrim (s : String) : String := ⟨chTrim s.data⟩

/-- Python `str.startswith(pre)`. -/
def strStartsWith (s pre : String) : Bool := chPref pre.data s.data

/-- Python `'readobject' in permissions`. -/
def readObjectIn (perms : String) : Bool :=
  chSub "readobject".data perms.data

/-- The document types recorded as type-only stubs. -/
def IGNORE_DOC_TYPES : List String :=
  ["Group", "BulletinBoard", "Bulletin", "Weblog", "WeblogEntry", "Event",
   "Calendar", "Wiki", "WikiPage"]

/-- Last-wins scan of a property list: Python loops that repeatedly assign
`x = prop.text.strip()` whenever `prop.attrib['name'] == nm`. -/
def lastPropTrim (ps : List XmlProp) (nm : String) (dflt : String) : String :=
  ps.foldl (fun acc p => if p.name = nm then strTrim p.text else acc) dflt

/-- Last-wins scan returning `some` of the trimmed text, for slots whose
initial Python value is `None`. -/
def lastPropSome (ps : List XmlProp) (nm : String) : Option String :=
  ps.foldl (fun acc p => if p.name = nm then some (strTrim p.text) else acc) none

/-- The owner back-reference: `owner = None` then `owner = obj.text` for each
`destinationlinks/owner` entry, so the last text (which may be `None`) wins. -/
def ownerOf (e : Element) : Option String :=
  match e.ownerLinks.getLast? with
  | some t => t
  | none => none

/-- The ACL scan of `get_documents`: `private` starts `True` and flips to
`False` at the first entry whose principal is Group-4, Group-5 or Group-7
and whose permission string contains `readobject`. -/
def derivePrivate : List Acl → Bool
  | [] => true
  | a :: rest =>
    if a.principal = "Group-4" && readObjectIn a.permissions then false
    else if a.principal = "Group-5" && readObjectIn a.permissions then false
    else if a.principal = "Group-7" && readObjectIn a.permissions then false
    else derivePrivate rest

/-- The `create_date` assignments of the Collection property loop: each
matching property runs `strptime` (which may raise) and overwrites `date`. -/
def colDateFold (pd : String → Option Int) : List XmlProp → Option Int → Except Err (Option Int)
  | [], acc => .ok acc
  | p :: ps, acc =>
    if p.name = "create_date" then
      match pd p.text with
      | some n => colDateFold pd ps (some n)
      | none => .error .valueErr
    else colDateFold pd ps acc

/-- The rendition property loop of the detailed Document branch: `size` and
`create_date` assignments, last wins, `strptime` may raise. -/
def rendFold (pd : String → Option Int) : List XmlProp → SizeVal × Option Int → Except Err (SizeVal × Option Int)
  | [], acc => .ok acc
  | p :: ps, acc =>
    let acc1 := if p.name = "size" then (SizeVal.fromText p.text, acc.2) else acc
    if p.name = "create_date" then
      match pd p.text with
      | some n => rendFold pd ps (acc1.1, some n)
      | none => .error .valueErr
    else rendFold pd ps acc1

/-- Version selection: a single version is used directly; otherwise the
first `preferredVersion` link must name one of the versions. -/
def selectVersion (e : Element) (vs : List VersionObj) : Except Err VersionObj :=
  if vs.length = 1 then
    match vs with
    | v :: _ => .ok v
    | [] => .error .noVersions
  else
    match e.preferredVersion with
    | [] => .error .noPreferredVersion
    | hdl :: _ =>
      match vs.find? (fun v => v.handle = hdl) with
      | some v => .ok v
      | none => .error .noMatchingVersion

/-- Title and url of a URL element: both default to `''`; with no (or empty)
props the title falls back to the id and the url stays empty. -/
def urlTitleUrl (e : Element) (id_ : String) : String × String :=
  match e.props with
  | none => (id_, "")
  | some ps => if ps = [] then (id_, "") else (lastPropTrim ps "title" "", lastPropTrim ps "url" "")

/-- The Collection branch of `get_documents`. -/
def colBranch (pd : String → Option Int) (e : Element) (id_ : String)
    (owner : Option String) (priv : Bool) : Except Err (Option (String × PyDoc)) :=
  match e.props with
  | none =>
    .ok (some (id_, { type_ := "Collection", title := some id_, sort_order := some "Title",
                      date := some none, owner := some owner, private_ := some priv,
                      children := some e.containment }))
  | some ps =>
    if ps = [] then
      .ok (some (id_, { type_ := "Collection", title := some id_, sort_order := some "Title",
                        date := some none, owner := some owner, private_ := some priv,
                        children := some e.containment }))
    else
      match colDateFold pd ps none with
      | .error er => .error er
      | .ok d =>
        .ok (some (id_, { type_ := "Collection", title := some (lastPropTrim ps "title" ""),
                          sort_order := some (lastPropTrim ps "sort_order" "Title"),
                          date := some d, owner := some owner, private_ := some priv,
                          children := some e.containment }))

/-- The URL branch of `get_documents`: summary mode stores a type-only stub;
detailed mode drops the record entirely when the derived url is empty. -/
def urlBranch (e : Element) (id_ : String) (owner : Option String) (priv : Bool)
    (details : Bool) : Except Err (Option (String × PyDoc)) :=
  if !details then .ok (some (id_, { type_ := "URL" }))
  else
    let tu := urlTitleUrl e id_
    if tu.2 = "" then .ok none
    else .ok (some (id_, { type_ := "URL", title := some tu.1, url := some tu.2,
                           owner := some owner, private_ := some priv }))

/-- The User branch of `get_documents`: the first `username` property wins,
missing props or username are fatal. -/
def userBranch (e : Element) : Except Err (Option (String × PyDoc)) :=
  match e.props with
  | none => .error .noProps
  | some ps =>
    match ps.find? (fun p => p.name = "username") with
    | some p => .ok (some (e.handle, { type_ := "User", username := some (strTrim p.text) }))
    | none => .error .noUsername

/-- The detailed Document branch of `get_documents`: title and original file
name from the props, authoritative version and its single rendition, size and
date from the rendition props, filename (and title fallback) from the first
content element. -/
def docDetailed (pd : String → Option Int) (e : Element) (id_ : String)
    (owner : Option String) (priv : Bool) : Except Err (Option (String × PyDoc)) :=
  let t0 := match e.props with
    | none => id_
    | some ps => if ps = [] then id_ else lastPropTrim ps "title" id_
  let ofn : Option String := match e.props with
    | none => none
    | some ps => if ps = [] then none else lastPropSome ps "original_file_name"
  match e.versions with
  | none => .error .noVersions
  | some vs =>
    match selectVersion e vs with
    | .error er => .error er
    | .ok vo =>
      match vo.renditions with
      | [] => .error .noRendition
      | _ :: _ :: _ => .error .tooManyRenditions
      | [r] =>
        match r.props with
        | none => .error .typeErr
        | some rps =>
          match rendFold pd rps (SizeVal.negOne, none) with
          | .error er => .error er
          | .ok sd =>
            let fc : Option String × String := match r.contentelements with
              | [] => (none, t0)
              | c :: _ => (some c.filename, if t0 = id_ then strTrim c.text else t0)
            .ok (some (id_, { type_ := "Document", owner := some owner, title := some fc.2,
                              private_ := some priv, size := some sd.1,
                              filename := some fc.1, original_file_name := some ofn,
                              date := some sd.2 }))

/-- Processing of one top-level element by `get_documents`: `none` means the
element contributes no record (missing classname, or a detailed URL with an
empty url). -/
def docsOfElement (pd : String → Option Int) (details : Bool) (e : Element) :
    Except Err (Option (String × PyDoc)) :=
  match e.classname with
  | none => .ok none
  | some type_ =>
    let id_ := e.handle
    if type_ = "Document" || type_ = "Collection" || type_ = "URL" then
      match e.acls with
      | none => .error .typeErr
      | some acls =>
        let owner := ownerOf e
        let priv := derivePrivate acls
        if type_ = "Document" then
          if !details then .ok (some (id_, { type_ := "Document" }))
          else docDetailed pd e id_ owner priv
        else if type_ = "Collection" then colBranch pd e id_ owner priv
        else urlBranch e id_ owner priv details
    else if type_ = "User" then userBranch e
    else if IGNORE_DOC_TYPES.contains type_ then .ok (some (id_, { type_ := type_ }))
    else .error .newType

/-- The accumulator loop of `get_documents`. -/
def getDocsAux (pd : String → Option Int) (details : Bool)
    (acc : List (String × PyDoc)) : List Element → Except Err (List (String × PyDoc))
  | [] => .ok acc
  | e :: es =>
    match docsOfElement pd details e with
    | .error er => .error er
    | .ok none => getDocsAux pd details acc es
    | .ok (some (k, v)) => getDocsAux pd details (updList acc k v) es

/-- `get_documents` of `dump_all.py` on the already-parsed element list. -/
def getDocuments (pd : String → Option Int) (details : Bool)
    (elems : List Element) : Except Err (List (String × PyDoc)) :=
  getDocsAux pd details [] elems

/-- A tree node: the `TreeNode` list subclass of `dump_all.py`, i.e. an
ordered child list plus a parent back-reference. -/
structure TNode where
  children : List String
  parent : Option String
  deriving Repr, DecidableEq

/-- The `Tree` of `dump_all.py`: id → node arena, root set (modelled as a
duplicate-free insertion-ordered list) and the Record Model it was built
from. -/
structure PyTree where
  nodes : List (String × TNode)
  roots : List String
  documents : List (String × PyDoc)
  deriving Repr, DecidableEq

/-- Ordered-set insertion for the root set. -/
def rootsAdd (rs : List String) (x : String) : List String :=
  if x ∈ rs then rs else rs ++ [x]

/-- `set.discard` for the root set. -/
def rootsDiscard (rs : List String) (x : String) : List String :=
  rs.filter (fun r => r ≠ x)

/-- The non-empty branch of `Tree.add_children`: append each candidate only
if it is not already present (the membership test sees earlier appends). -/
def addChildrenList (node : List String) : List String → List String
  | [] => node
  | c :: cs => if c ∈ node then addChildrenList node cs else addChildrenList (node ++ [c]) cs

/-- `Tree.add_children`: with a non-empty child list candidates are appended
idempotently; an empty child list is extended with the candidates verbatim. -/
def addChildren (t : PyTree) (id_ : String) (cs : List String) : Except Err PyTree :=
  match lookupList t.nodes id_ with
  | none => .error .key
  | some node =>
    let newChildren := if node.children ≠ [] then addChildrenList node.children cs
                       else node.children ++ cs
    .ok { t with nodes := updList t.nodes id_ { node with children := newChildren } }

/-- `Tree.add_node`: get-or-create the node; with a parent argument set the
back-reference, list the id under the parent if absent and drop it from the
roots; with no parent argument add it to the roots only if it has no parent
yet; finally add the declared children. -/
def addNode (t : PyTree) (id_ : String) (parent : Option String)
    (childrenArg : Option (List String)) : Except Err PyTree :=
  let t1 := match lookupList t.nodes id_ with
    | some _ => t
    | none => { t with nodes := updList t.nodes id_ { children := [], parent := none } }
  let step2 : Except Err PyTree :=
    match parent with
    | some p =>
      match lookupList t1.nodes id_ with
      | none => .error .key
      | some node =>
        let t2 := { t1 with nodes := updList t1.nodes id_ { node with parent := some p } }
        match lookupList t2.nodes p with
        | none => .error .key
        | some pnode =>
          let pn2 : TNode := { pnode with children := pnode.children ++ [id_] }
          let t3 := if id_ ∈ pnode.children then t2
                    else { t2 with nodes := updList t2.nodes p pn2 }
          .ok { t3 with roots := rootsDiscard t3.roots id_ }
    | none =>
      match lookupList t1.nodes id_ with
      | none => .error .key
      | some node =>
        if node.parent = none then .ok { t1 with roots := rootsAdd t1.roots id_ }
        else .ok t1
  match step2 with
  | .error er => .error er
  | .ok t4 =>
    match childrenArg with
    | none => .ok t4
    | some cs => addChildren t4 id_ cs

/-- `Tree.set_parent`: an unknown child is created under the parent; a known
child is listed under the parent, its back-reference is overwritten and it is
dropped from the roots — nothing removes it from a previous parent's list. -/
def setParent (t : PyTree) (parentId childId : String) : Except Err PyTree :=
  match lookupList t.nodes childId with
  | none => addNode t childId (some parentId) none
  | some _ =>
    match addChildren t parentId [childId] with
    | .error er => .error er
    | .ok t1 =>
      match lookupList t1.nodes childId with
      | none => .error .key
      | some cnode =>
        let t2 := { t1 with nodes := updList t1.nodes childId { cnode with parent := some parentId } }
        .ok { t2 with roots := rootsDiscard t2.roots childId }

/-- The 2-tuple sort key of `TreeSorts.Title`: `(0, title)` when the id
resolves to a record with a title, `(1, '')` on any `KeyError`. -/
def sortKey (documents : List (String × PyDoc)) (k : String) : Nat × String :=
  match lookupList documents k with
  | some d =>
    match d.title with
    | some t => (0, t)
    | none => (1, "")
  | none => (1, "")

/-- Python tuple `≤` on the sort keys (lexicographic; the string leg uses
code-point order, i.e. the negation of `<`). -/
def keyLeB (a b : Nat × String) : Bool :=
  if a.1 < b.1 then true
  else if a.1 = b.1 then !(strLtB b.2 a.2)
  else false

/-- Stable insertion into a sorted list: the element being inserted comes
from an earlier position of the original list, so it goes before the first
element it compares `le` to. -/
def insSorted {α : Type} (le : α → α → Bool) (x : α) : List α → List α
  | [] => [x]
  | y :: ys => if le x y then x :: y :: ys else y :: insSorted le x ys

/-- Stable sort, the semantics of Python's `list.sort(key=...)`. -/
def stableSort {α : Type} (le : α → α → Bool) : List α → List α
  | [] => []
  | x :: xs => insSorted le x (stableSort le xs)

/-- `TreeSorts.Title`: stable ascending sort of the node's child list by the
2-tuple key. -/
def sortTitle (t : PyTree) (id_ : String) : Except Err PyTree :=
  match lookupList t.nodes id_ with
  | none => .error .key
  | some node =>
    let sorted := stableSort
      (fun x y => keyLeB (sortKey t.documents x) (sortKey t.documents y)) node.children
    .ok { t with nodes := updList t.nodes id_ { node with children := sorted } }

/-- `TreeSorts.TitleReversed`: the same key, `reverse=True`, which Python
implements as a stable sort under the flipped comparison. -/
def sortTitleReversed (t : PyTree) (id_ : String) : Except Err PyTree :=
  match lookupList t.nodes id_ with
  | none => .error .key
  | some node =>
    let sorted := stableSort
      (fun x y => keyLeB (sortKey t.documents y) (sortKey t.documents x)) node.children
    .ok { t with nodes := updList t.nodes id_ { node with children := sorted } }

/-- `TreeSorts.lookup` dispatch: the four sort method names, every other
name (and the explicit `Default`) is a no-op. Pathological `getattr` hits on
non-policy attributes are outside the model. -/
def applySort (name : String) (t : PyTree) (id_ : String) : Except Err PyTree :=
  if name = "Title" then sortTitle t id_
  else if name = "TitleReversed" then sortTitleReversed t id_
  else if name = "TypeAndTitle" then sortTitle t id_
  else if name = "TypeAndTitleReversed" then sortTitleReversed t id_
  else .ok t

/-- The inner loop of `build_tree`'s first pass: `set_parent` for every
declared child whose id has the Collection prefix. -/
def setParentsLoop (id_ : String) : PyTree → List String → Except Err PyTree
  | t, [] => .ok t
  | t, c :: cs =>
    if strStartsWith c "Collection" then
      match setParent t id_ c with
      | .error er => .error er
      | .ok t1 => setParentsLoop id_ t1 cs
    else setParentsLoop id_ t cs

/-- First pass of `build_tree`: register every Collection with its declared
children, then claim parenthood of its Collection-prefixed children. -/
def buildLoop1 : PyTree → List (String × PyDoc) → Except Err PyTree
  | t, [] => .ok t
  | t, (id_, doc) :: rest =>
    if doc.type_ = "Collection" then
      match doc.children with
      | none => .error .key
      | some cs =>
        match addNode t id_ none (some cs) with
        | .error er => .error er
        | .ok t1 =>
          match setParentsLoop id_ t1 cs with
          | .error er => .error er
          | .ok t2 => buildLoop1 t2 rest
    else buildLoop1 t rest

/-- Second pass of `build_tree`: apply the named sort policy to every
Collection with a non-empty child list. -/
def buildLoop2 : PyTree → List (String × PyDoc) → Except Err PyTree
  | t, [] => .ok t
  | t, (id_, doc) :: rest =>
    if doc.type_ = "Collection" then
      match doc.children with
      | none => .error .key
      | some cs =>
        if cs ≠ [] then
          match doc.sort_order with
          | none => .error .key
          | some so =>
            match applySort so t id_ with
            | .error er => .error er
            | .ok t1 => buildLoop2 t1 rest
        else buildLoop2 t rest
    else buildLoop2 t rest

/-- `build_tree` of `dump_all.py`. -/
def buildTree (documents : List (String × PyDoc)) : Except Err PyTree :=
  match buildLoop1 { nodes := [], roots := [], documents := documents } documents with
  | .error er => .error er
  | .ok t1 => buildLoop2 t1 documents

/-- The record-kind lookup of the walker loops: ids absent from the Record
Model count as plain Documents. -/
def docTypeOf (t : PyTree) (d : String) : String :=
  match lookupList t.documents d with
  | some doc => doc.type_
  | none => "Document"

/-- The walker's depth guard `if self.skip_level and level >= self.skip_level`
(`None` and `0` are falsy). -/
def skipCut (skip : Option Int) (level : Nat) : Bool :=
  match skip with
  | none => false
  | some k => k ≠ 0 && (level : Int) ≥ k

/-- Seen-set insertion (`set.add`). -/
def insertId (seen : List String) (x : String) : List String :=
  if x ∈ seen then seen else x :: seen

/-- The child loop of `TreeWalker._traverse_dfs`: leaves are yielded; a
Collection child already among the ancestors or seen ids is skipped; any
other Collection child triggers `self._traverse_helper`, an attribute that
does not exist, so an `AttributeError` aborts the generator. -/
def dfsScan (t : PyTree) (newps : List String) (seen : List String) :
    List String → List (String × List String) × Option Err
  | [] => ([], none)
  | d :: ds =>
    if docTypeOf t d = "Collection" then
      if d ∈ newps || d ∈ seen then dfsScan t newps seen ds
      else ([], some .attr)
    else
      let rest := dfsScan t newps seen ds
      ((d, newps) :: rest.1, rest.2)

/-- `TreeWalker._traverse_dfs` on one node: returns the yields, the updated
seen set and the pending exception, if any. -/
def traverseDfsNode (t : PyTree) (skip : Option Int) (seen : List String)
    (id_ : String) (ps : List String) :
    List (String × List String) × List String × Option Err :=
  if skipCut skip ps.length then ([], seen, none)
  else
    let seen1 := insertId seen id_
    match lookupList t.nodes id_ with
    | none => ([(id_, ps)], seen1, some .key)
    | some node =>
      let newps := ps ++ [id_]
      let scanned := dfsScan t newps seen1 node.children
      ((id_, ps) :: scanned.1, seen1, scanned.2)

/-- The dfs arm of `TreeWalker.traverse`: run `_traverse_dfs` from each
start id, stopping at the first exception. -/
def traverseDfsRoots (t : PyTree) (skip : Option Int) :
    List String → List String → List (String × List String) × List String × Option Err
  | seen, [] => ([], seen, none)
  | seen, id_ :: rest =>
    let r := traverseDfsNode t skip seen id_ []
    match r.2.2 with
    | some er => (r.1, r.2.1, some er)
    | none =>
      let r2 := traverseDfsRoots t skip r.2.1 rest
      (r.1 ++ r2.1, r2.2.1, r2.2.2)

/-- The child loop of one bfs dequeue: every child is yielded except a
Collection child already among the ancestors or seen ids; an unseen
Collection child is also enqueued. Returns (yields, new queue entries). -/
def bfsScan (t : PyTree) (newps : List String) (seen : List String) :
    List String → List (String × List String) × List (String × List String)
  | [] => ([], [])
  | d :: ds =>
    let rest := bfsScan t newps seen ds
    if docTypeOf t d = "Collection" then
      if d ∈ newps || d ∈ seen then rest
      else ((d, newps) :: rest.1, (d, newps) :: rest.2)
    else ((d, newps) :: rest.1, rest.2)

/-- The bfs work loop of `TreeWalker.traverse`, with a fuel bound: `none`
means the fuel ran out before the queue drained. Each dequeue marks the id
seen *after* it was popped — there is no seen-check on the popped id itself. -/
def bfsAux (t : PyTree) : Nat → List (String × List String) → List String →
    Option (List (String × List String) × Option Err)
  | 0, _, _ => none
  | _ + 1, [], _ => some ([], none)
  | n + 1, (id_, ps) :: rest, seen =>
    match lookupList t.nodes id_ with
    | none => some ([], some Err.key)
    | some node =>
      let seen1 := insertId seen id_
      let newps := ps ++ [id_]
      let scanned := bfsScan t newps seen1 node.children
      match bfsAux t n (rest ++ scanned.2) seen1 with
      | none => none
      | some (outs, er) => some (scanned.1 ++ outs, er)

/-- The bfs arm of `TreeWalker.traverse`: every start id is yielded with an
empty ancestor list, then the queue is drained. `skip` is a field of the
walker but the bfs arm never reads it. -/
def traverseBfs (t : PyTree) (skip : Option Int) (ids : List String) (fuel : Nat) :
    Option (List (String × List String) × Option Err) :=
  match bfsAux t fuel (ids.map (fun i => (i, []))) [] with
  | none => none
  | some (outs, er) => some (ids.map (fun i => (i, [])) ++ outs, er)

/-- `TreeWalker.traverse`: explicit sub-collection id or the root set, then
the selected discipline. -/
def traverse (t : PyTree) (skip : Option Int) (ttype : String)
    (idOpt : Option String) (fuel : Nat) :
    Option (List (String × List String) × Option Err) :=
  let ids := match idOpt with
    | some i => [i]
    | none => t.roots
  if ttype = "dfs" then
    let r := traverseDfsRoots t skip [] ids
    some (r.1, r.2.2)
  else traverseBfs t skip ids fuel

/-- A collection record of `dump.py`'s simpler model. -/
structure ColRec where
  parent : Option String
  title : String := ""
  children : List String := []
  deriving Repr, DecidableEq

/-- `walk_tree` of `dump.py` (the recursive variant with no cycle guard),
with fuel standing for the call stack: `none` models the recursion failing
to complete. Collection-prefixed children are recursed into, others are
yielded as leaves; an exception stops the remaining children. -/
def walkTreeAux (cols : List (String × ColRec)) :
    Nat → String → Nat → Option (List (String × Nat) × Option Err)
  | 0, _, _ => none
  | n + 1, root, level =>
    match lookupList cols root with
    | none => some ([(root, level)], some Err.key)
    | some c =>
      let step := fun (acc : Option (List (String × Nat) × Option Err)) (d : String) =>
        match acc with
        | none => none
        | some (outs, some er) => some (outs, some er)
        | some (outs, none) =>
          if strStartsWith d "Collection" then
            match walkTreeAux cols n d (level + 1) with
            | none => none
            | some (outs2, er) => some (outs ++ outs2, er)
          else some (outs ++ [(d, level + 1)], none)
      c.children.foldl step (some ([(root, level)], none))

/-- The per-item document selection of `main.parallel` in `dump_all.py`:
ids missing from the Record Model fall back to a root-owned stub, ignorable
kinds are skipped, and in output mode every non-Collection item is replaced
by the batch-fetched detailed record, keyed by id (a missing key raises).
The boolean of the result marks items that use the batch workspace path. -/
def itemDoc (documents new_docs : List (String × PyDoc)) (output : Bool)
    (id_ : String) : Except Err (Option (PyDoc × Bool)) :=
  let doc := match lookupList documents id_ with
    | some d => d
    | none => { type_ := "Document", title := some "", owner := some (some "root"),
                private_ := some false }
  if IGNORE_DOC_TYPES.contains doc.type_ then .ok none
  else if doc.type_ ≠ "Collection" && output then
    match lookupList new_docs id_ with
    | none => .error .key
    | some d => .ok (some (d, true))
  else .ok (some (doc, false))

/-- The first loop of a `main.parallel` batch: the ids needing the external
detailed fetch (non-ignorable, non-Collection items in output mode). -/
def batchDocIds (documents : List (String × PyDoc)) (output : Bool)
    (batch : List (String × List String)) : List String :=
  batch.filterMap (fun e =>
    let doc := match lookupList documents e.1 with
      | some d => d
      | none => { type_ := "Document", title := some "", owner := some (some "root"),
                  private_ := some false }
    if IGNORE_DOC_TYPES.contains doc.type_ then none
    else if doc.type_ ≠ "Collection" && output then some e.1
    else none)

/-- Events of the batch loop trace: an item yielded to (and processed by)
the consumer, and the `shutil.rmtree` of the batch workspace. -/
inductive BEvent where
  | yieldItem (id_ : String)
  | rmtree
  deriving Repr, DecidableEq

/-- The `try` body of a `main.parallel` batch: yield each selected item to
the consumer (whose failure models an exception at the yield point) and stop
at the first exception. -/
def batchLoop (documents new_docs : List (String × PyDoc)) (output : Bool)
    (consume : String × List String × PyDoc × Bool → Except Err Unit) :
    List (String × List String) → List BEvent × Option Err
  | [] => ([], none)
  | (id_, ps) :: rest =>
    match itemDoc documents new_docs output id_ with
    | .error er => ([], some er)
    | .ok none => batchLoop documents new_docs output consume rest
    | .ok (some (d, bp)) =>
      match consume (id_, ps, d, bp) with
      | .error er => ([BEvent.yieldItem id_], some er)
      | .ok _ =>
        let r := batchLoop documents new_docs output consume rest
        (BEvent.yieldItem id_ :: r.1, r.2)

/-- One batch of `main.parallel` with its `try`/`finally`: after the loop —
normally or on an exception — the workspace is removed whenever the external
fetch was invoked (`doc_ids` non-empty), before the exception propagates. -/
def processBatch (documents new_docs : List (String × PyDoc)) (output : Bool)
    (consume : String × List String × PyDoc × Bool → Except Err Unit)
    (batch : List (String × List String)) : List BEvent × Option Err :=
  let docIds := batchDocIds documents output batch
  let r := batchLoop documents new_docs output consume batch
  (r.1 ++ (if docIds ≠ [] then [BEvent.rmtree] else []), r.2)

/-- Record Model with one collection referenced as a child from two parent
collections (traversal claims). -/
def c1Docs : List (String × PyDoc) :=
  [("Collection-P1", { type_ := "Collection", sort_order := some "Default",
                       children := some ["Collection-C"] }),
   ("Collection-P2", { type_ := "Collection", sort_order := some "Default",
                       children := some ["Collection-C"] }),
   ("Collection-C", { type_ := "Collection", sort_order := some "Default",
                      children := some ["Document-D"] })]

/-- The tree `build_tree` produces from `c1Docs`. -/
def c1Tree : PyTree :=
  { nodes := [("Collection-P1", { children := ["Collection-C"], parent := none }),
              ("Collection-C", { children := ["Document-D"], parent := some "Collection-P2" }),
              ("Collection-P2", { children := ["Collection-C"], parent := none })],
    roots := ["Collection-P1", "Collection-P2"],
    documents := c1Docs }

/-- A `dump.py` collection map with a self-cycle. -/
def walkCyc : List (String × ColRec) :=
  [("Collection-A", { parent := none, children := ["Collection-A"] })]

/-- Record Model with a depth-2 chain root → sub-collection → leaf
(depth-limit claim). -/
def c2Docs : List (String × PyDoc) :=
  [("Collection-R", { type_ := "Collection", sort_order := some "Default",
                      children := some ["Collection-C"] }),
   ("Collection-C", { type_ := "Collection", sort_order := some "Default",
                      children := some ["Document-D"] })]

/-- The tree `build_tree` produces from `c2Docs`. -/
def c2Tree : PyTree :=
  { nodes := [("Collection-R", { children := ["Collection-C"], parent := none }),
              ("Collection-C", { children := ["Document-D"], parent := some "Collection-R" })],
    roots := ["Collection-R"],
    documents := c2Docs }

/-- Sort-claim Record Model, policy `Title`: children declared
`[d2("Banana"), d1("Apple"), d3(unresolvable)]`. -/
def c3TitleDocs : List (String × PyDoc) :=
  [("Collection-1", { type_ := "Collection", title := some "Col", sort_order := some "Title",
                      children := some ["Document-2", "Document-1", "Document-3"] }),
   ("Document-1", { type_ := "Document", title := some "Apple" }),
   ("Document-2", { type_ := "Document", title := some "Banana" })]

/-- The same Record Model with policy `TitleReversed`. -/
def c3RevDocs : List (String × PyDoc) :=
  [("Collection-1", { type_ := "Collection", title := some "Col",
                      sort_order := some "TitleReversed",
                      children := some ["Document-2", "Document-1", "Document-3"] }),
   ("Document-1", { type_ := "Document", title := some "Apple" }),
   ("Document-2", { type_ := "Document", title := some "Banana" })]

/-- Record Model in which `Collection-X` is declared a child of both
`Collection-A` and (later) `Collection-B`. -/
def c4Docs : List (String × PyDoc) :=
  [("Collection-A", { type_ := "Collection", sort_order := some "Default",
                      children := some ["Collection-X"] }),
   ("Collection-B", { type_ := "Collection", sort_order := some "Default",
                      children := some ["Collection-X"] }),
   ("Collection-X", { type_ := "Collection", children := some [] })]

/-- A small tree for exercising `set_parent` directly. -/
def c4WitTree : PyTree :=
  { nodes := [("Collection-A", { children := ["Collection-X"], parent := none }),
              ("Collection-X", { children := [], parent := some "Collection-A" }),
              ("Collection-B", { children := [], parent := none })],
    roots := ["Collection-A", "Collection-B"],
    documents := [] }

/-- Record Model whose collection declares the same child id twice. -/
def c5Docs : List (String × PyDoc) :=
  [("Collection-1", { type_ := "Collection", sort_order := some "Default",
                      children := some ["Document-1", "Document-1"] })]

/-- A small tree for exercising `add_children` on a non-empty child list. -/
def c5WitTree : PyTree :=
  { nodes := [("Collection-1", { children := ["Document-A"], parent := none })],
    roots := ["Collection-1"],
    documents := [] }

/-- A rendition with empty props and one content element. -/
def c6Rend : Rendition :=
  { props := some [], contentelements := [{ filename := "f.pdf", text := "F" }] }

/-- A single version carrying `c6Rend`. -/
def c6Ver : VersionObj := { handle := "Version-1", renditions := [c6Rend] }

/-- A Document element whose detailed extraction succeeds. -/
def c6Elem : Element :=
  { classname := some "Document", handle := "Document-1",
    props := some [{ name := "title", text := "T" }],
    acls := some [{ principal := "Group-4", permissions := "readobject" }],
    ownerLinks := [some "User-2"], containment := [], preferredVersion := [],
    versions := some [c6Ver] }

/-- The detailed record the extractor builds from `c6Elem`. -/
def c6Doc : PyDoc :=
  { type_ := "Document", title := some "T", owner := some (some "User-2"),
    private_ := some false, size := some SizeVal.negOne,
    filename := some (some "f.pdf"), original_file_name := some none,
    date := some none }

/-- A URL element with no props (hence an empty derived url). -/
def c7Elem : Element :=
  { classname := some "URL", handle := "URL-1", props := none,
    acls := some [], ownerLinks := [], containment := [], preferredVersion := [],
    versions := none }

/-- A Collection element granting `readobject` to Group-5. -/
def c8Elem : Element :=
  { classname := some "Collection", handle := "Collection-9", props := none,
    acls := some [{ principal := "Group-5", permissions := "read readobject" }],
    ownerLinks := [], containment := [], preferredVersion := [], versions := none }

/-- The tree `set_parent` produces from `c4WitTree`. -/
def c4WitTree' : PyTree :=
  { nodes := [("Collection-A", { children := ["Collection-X"], parent := none }),
              ("Collection-X", { children := [], parent := some "Collection-B" }),
              ("Collection-B", { children := ["Collection-X"], parent := none })],
    roots := ["Collection-A", "Collection-B"],
    documents := [] }

/-- The tree `add_children` produces from `c5WitTree`. -/
def c5WitTree' : PyTree :=
  { nodes := [("Collection-1", { children := ["Document-A", "Document-B"], parent := none })],
    roots := ["Collection-1"],
    documents := [] }

/-- The type-only summary record of a Document. -/
def c6Summary : PyDoc := { type_ := "Document" }

/-- The single ACL entry of `c8Elem`. -/
def c8Acl : Acl := { principal := "Group-5", permissions := "read readobject" }

/-- The Collection record the extractor builds from `c8Elem`. -/
def c8Doc : PyDoc :=
  { type_ := "Collection", title := some "Collection-9", owner := some none,
    private_ := some false, sort_order := some "Title", children := some [],
    date := some none }

theorem lookupList_updList_self {α : Type} (l : List (String × α)) (k : String) (v : α) :
    lookupList (updList l k v) k = some v := by
  induction l with
  | nil => simp [updList, lookupList]
  | cons p rest ih =>
    obtain ⟨k0, v0⟩ := p
    by_cases hk : k0 = k
    · simp [updList, hk, lookupList]
    · simp [updList, hk, lookupList, ih]

theorem lookupList_updList_ne {α : Type} (l : List (String × α)) (k q : String) (v : α)
    (h : k ≠ q) : lookupList (updList l k v) q = lookupList l q := by
  induction l with
  | nil => simp [updList, lookupList, h]
  | cons p rest ih =>
    obtain ⟨k0, v0⟩ := p
    by_cases hk : k0 = k
    · subst hk
      simp [updList, lookupList, h]
    · simp [updList, hk, lookupList, ih]

theorem lookupList_mem {α : Type} :
    ∀ {l : List (String × α)} {k : String} {v : α}, lookupList l k = some v → (k, v) ∈ l := by
  intro l
  induction l with
  | nil => intro k v h; simp [lookupList] at h
  | cons p rest ih =>
    intro k v h
    obtain ⟨k0, v0⟩ := p
    by_cases hk : k0 = k
    · subst hk
      simp [lookupList] at h
      simp [h]
    · simp [lookupList, hk] at h
      exact List.mem_cons_of_mem _ (ih h)

theorem not_mem_rootsDiscard (rs : List String) (x : String) : x ∉ rootsDiscard rs x := by
  simp [rootsDiscard, List.mem_filter]

theorem addChildrenList_nodup :
    ∀ (cs node : List String), node.Nodup → (addChildrenList node cs).Nodup := by
  intro cs
  induction cs with
  | nil => intro node h; simpa [addChildrenList] using h
  | cons c cs ih =>
    intro node h
    by_cases hc : c ∈ node
    · simpa [addChildrenList, hc] using ih node h
    · have h2 : (node ++ [c]).Nodup := by
        simp [List.nodup_append, h, hc]
      simpa [addChildrenList, hc] using ih (node ++ [c]) h2

theorem derivePrivate_eq_false_iff (l : List Acl) :
    derivePrivate l = false ↔
      ∃ a ∈ l, (a.principal = "Group-4" ∨ a.principal = "Group-5" ∨ a.principal = "Group-7") ∧
        readObjectIn a.permissions = true := by
  induction l with
  | nil => simp [derivePrivate]
  | cons a rest ih =>
    by_cases h4 : a.principal = "Group-4" && readObjectIn a.permissions
    · rw [Bool.and_eq_true] at h4
      have hp : a.principal = "Group-4" := of_decide_eq_true h4.1
      simp [derivePrivate, h4.2, hp]
    · by_cases h5 : a.principal = "Group-5" && readObjectIn a.permissions
      · rw [Bool.and_eq_true] at h5
        have hp : a.principal = "Group-5" := of_decide_eq_true h5.1
        simp [derivePrivate, h5.2, hp]
      · by_cases h7 : a.principal = "Group-7" && readObjectIn a.permissions
        · rw [Bool.and_eq_true] at h7
          have hp : a.principal = "Group-7" := of_decide_eq_true h7.1
          simp [derivePrivate, h7.2, hp]
        · have hstep : derivePrivate (a :: rest) = derivePrivate rest := by
            simp only [derivePrivate]
            rw [if_neg (by simpa using h4), if_neg (by simpa using h5), if_neg (by simpa using h7)]
          rw [hstep, ih]
          constructor
          · rintro ⟨b, hb, hp⟩
            exact ⟨b, List.mem_cons_of_mem _ hb, hp⟩
          · rintro ⟨b, hb, hp⟩
            rcases List.mem_cons.mp hb with hba | hbr
            · subst hba
              exfalso
              rcases hp.1 with hg | hg | hg
              · exact h4 (by simp [hg, hp.2])
              · exact h5 (by simp [hg, hp.2])
              · exact h7 (by simp [hg, hp.2])
            · exact ⟨b, hbr, hp⟩

theorem insSorted_perm {α : Type} (le : α → α → Bool) (x : α) :
    ∀ l : List α, (insSorted le x l).Perm (x :: l) := by
  intro l
  induction l with
  | nil => simp [insSorted]
  | cons y ys ih =>
    by_cases h : le x y
    · simp [insSorted, h]
    · simp only [insSorted, h, Bool.false_eq_true, if_false]
      exact (ih.cons y).trans (List.Perm.swap x y ys)

theorem stableSort_perm {α : Type} (le : α → α → Bool) :
    ∀ l : List α, (stableSort le l).Perm l := by
  intro l
  induction l with
  | nil => simp [stableSort]
  | cons x xs ih =>
    exact (insSorted_perm le x (stableSort le xs)).trans (ih.cons x)

theorem insSorted_pairwise {α : Type} (le : α → α → Bool)
    (htot : ∀ a b, le a b = false → le b a = true)
    (htrans : ∀ a b c, le a b = true → le b c = true → le a c = true) (x : α) :
    ∀ l : List α, l.Pairwise (fun a b => le a b = true) →
      (insSorted le x l).Pairwise (fun a b => le a b = true) := by
  intro l
  induction l with
  | nil => intro _; simp [insSorted]
  | cons y ys ih =>
    intro h
    rw [List.pairwise_cons] at h
    by_cases hle : le x y
    · simp only [insSorted, hle, if_true]
      rw [List.pairwise_cons]
      constructor
      · intro z hz
        rcases List.mem_cons.mp hz with hzy | hzys
        · rw [hzy]; exact hle
        · exact htrans x y z hle (h.1 z hzys)
      · rw [List.pairwise_cons]
        exact h
    · simp only [insSorted, hle, Bool.false_eq_true, if_false]
      rw [List.pairwise_cons]
      constructor
      · intro z hz
        have hz2 : z ∈ x :: ys := (insSorted_perm le x ys).mem_iff.mp hz
        rcases List.mem_cons.mp hz2 with hzx | hzys
        · rw [hzx]
          exact htot x y (by simpa using hle)
        · exact h.1 z hzys
      · exact ih h.2

theorem stableSort_pairwise {α : Type} (le : α → α → Bool)
    (htot : ∀ a b, le a b = false → le b a = true)
    (htrans : ∀ a b c, le a b = true → le b c = true → le a c = true) :
    ∀ l : List α, (stableSort le l).Pairwise (fun a b => le a b = true) := by
  intro l
  induction l with
  | nil => simp [stableSort]
  | cons x xs ih =>
    exact insSorted_pairwise le htot htrans x (stableSort le xs) ih

theorem chLt_asymm : ∀ l1 l2 : List Char, chLt l1 l2 = true → chLt l2 l1 = false := by
  intro l1
  induction l1 with
  | nil =>
    intro l2 h
    cases l2 with
    | nil => simp [chLt] at h
    | cons b bs => simp [chLt]
  | cons a as ih =>
    intro l2 h
    cases l2 with
    | nil => simp [chLt] at h
    | cons b bs =>
      simp only [chLt] at h ⊢
      by_cases hab : a < b
      · have h1 : ¬ b < a := asymm hab
        have h2 : b ≠ a := ne_of_gt hab
        simp [h1, h2]
      · by_cases heq : a = b
        · subst heq
          rw [if_neg hab, if_pos rfl] at h
          have h1 : ¬ a < a := lt_irrefl a
          simp [h1, ih bs h]
        · rw [if_neg hab, if_neg heq] at h
          exact absurd h (by simp)

theorem chLt_conn : ∀ l1 l2 : List Char, chLt l1 l2 = false → chLt l2 l1 = false → l1 = l2 := by
  intro l1
  induction l1 with
  | nil =>
    intro l2 h1 _
    cases l2 with
    | nil => rfl
    | cons b bs => simp [chLt] at h1
  | cons a as ih =>
    intro l2 h1 h2
    cases l2 with
    | nil => simp [chLt] at h2
    | cons b bs =>
      simp only [chLt] at h1 h2
      by_cases hab : a < b
      · simp [hab] at h1
      · by_cases hba : b < a
        · simp [hba] at h2
        · have heq : a = b := le_antisymm (not_lt.mp hba) (not_lt.mp hab)
          subst heq
          rw [if_neg hab, if_pos rfl] at h1
          rw [if_neg hab, if_pos rfl] at h2
          rw [ih bs h1 h2]

theorem chLt_trans : ∀ l1 l2 l3 : List Char,
    chLt l1 l2 = true → chLt l2 l3 = true → chLt l1 l3 = true := by
  intro l1
  induction l1 with
  | nil =>
    intro l2 l3 h1 h2
    cases l2 with
    | nil => simp [chLt] at h1
    | cons b bs =>
      cases l3 with
      | nil => simp [chLt] at h2
      | cons c cs => simp [chLt]
  | cons a as ih =>
    intro l2 l3 h1 h2
    cases l2 with
    | nil => simp [chLt] at h1
    | cons b bs =>
      cases l3 with
      | nil => simp [chLt] at h2
      | cons c cs =>
        simp only [chLt] at h1 h2 ⊢
        by_cases hab : a < b
        · by_cases hbc : b < c
          · simp [lt_trans hab hbc]
          · by_cases hbce : b = c
            · subst hbce; simp [hab]
            · rw [if_neg hbc, if_neg hbce] at h2
              exact absurd h2 (by simp)
        · by_cases habe : a = b
          · subst habe
            rw [if_neg hab, if_pos rfl] at h1
            by_cases hbc : a < c
            · simp [hbc]
            · by_cases hbce : a = c
              · subst hbce
                rw [if_neg hbc, if_pos rfl] at h2
                simp [hbc, ih bs cs h1 h2]
              · rw [if_neg hbc, if_neg hbce] at h2
                exact absurd h2 (by simp)
          · rw [if_neg hab, if_neg habe] at h1
            exact absurd h1 (by simp)

theorem keyLeB_iff (a b : Nat × String) :
    keyLeB a b = true ↔ (a.1 < b.1 ∨ (a.1 = b.1 ∧ strLtB b.2 a.2 = false)) := by
  simp only [keyLeB]
  split_ifs with h1 h2
  · simp [h1]
  · simp [h1, h2]
  · simp [h1, h2]

theorem keyLeB_total (a b : Nat × String) : keyLeB a b = false → keyLeB b a = true := by
  intro h
  rw [keyLeB_iff]
  have hn : ¬ (a.1 < b.1 ∨ (a.1 = b.1 ∧ strLtB b.2 a.2 = false)) := by
    rw [← keyLeB_iff]
    simp [h]
  push_neg at hn
  rcases Nat.lt_trichotomy a.1 b.1 with hl | he | hg
  · exact absurd hl (not_lt.mpr hn.1)
  · right
    refine ⟨he.symm, ?_⟩
    have hba : strLtB b.2 a.2 = true := by
      rcases Bool.eq_false_or_eq_true (strLtB b.2 a.2) with ht | hf
      · exact ht
      · exact absurd hf (hn.2 he)
    exact chLt_asymm b.2.data a.2.data hba
  · exact Or.inl hg

theorem keyLeB_trans (a b c : Nat × String) :
    keyLeB a b = true → keyLeB b c = true → keyLeB a c = true := by
  intro hab hbc
  rw [keyLeB_iff] at hab hbc ⊢
  rcases hab with h1 | ⟨h1e, h1s⟩
  · rcases hbc with h2 | ⟨h2e, _⟩
    · exact Or.inl (lt_trans h1 h2)
    · exact Or.inl (h2e ▸ h1)
  · rcases hbc with h2 | ⟨h2e, h2s⟩
    · exact Or.inl (h1e ▸ h2)
    · right
      refine ⟨h1e.trans h2e, ?_⟩
      rcases Bool.eq_false_or_eq_true (strLtB c.2 a.2) with ht | hf
      · exfalso
        simp only [strLtB] at h1s h2s ht
        rcases Bool.eq_false_or_eq_true (chLt b.2.data c.2.data) with hbct | hbcf
        · have : chLt b.2.data a.2.data = true := chLt_trans b.2.data c.2.data a.2.data hbct ht
          rw [this] at h1s
          exact Bool.true_eq_false.mp h1s
        · have heq : c.2.data = b.2.data := chLt_conn c.2.data b.2.data h2s hbcf
          have : chLt b.2.data a.2.data = true := by
            rw [← heq]
            exact ht
          rw [this] at h1s
          exact Bool.true_eq_false.mp h1s
      · exact hf

theorem dfsScan_err_iff (t : PyTree) (newps seen : List String) :
    ∀ cs : List String, (dfsScan t newps seen cs).2 = some Err.attr ↔
      ∃ d ∈ cs, docTypeOf t d = "Collection" ∧ d ∉ newps ∧ d ∉ seen := by
  intro cs
  induction cs with
  | nil => simp [dfsScan]
  | cons d ds ih =>
    by_cases hc : docTypeOf t d = "Collection"
    · by_cases hm : d ∈ newps ∨ d ∈ seen
      · rw [show dfsScan t newps seen (d :: ds) = dfsScan t newps seen ds by
          simp [dfsScan, hc, hm]]
        rw [ih]
        constructor
        · rintro ⟨e, he, hp⟩
          exact ⟨e, List.mem_cons_of_mem _ he, hp⟩
        · rintro ⟨e, he, hp⟩
          rcases List.mem_cons.mp he with hed | her
          · exfalso
            rcases hm with h | h
            · exact hp.2.1 (hed ▸ h)
            · exact hp.2.2 (hed ▸ h)
          · exact ⟨e, her, hp⟩
      · push_neg at hm
        have : dfsScan t newps seen (d :: ds) = ([], some Err.attr) := by
          simp [dfsScan, hc, hm.1, hm.2]
        rw [this]
        simp only [true_iff]
        exact ⟨d, List.mem_cons_self d ds, hc, hm.1, hm.2⟩
    · have hstep : (dfsScan t newps seen (d :: ds)).2 = (dfsScan t newps seen ds).2 := by
        simp [dfsScan, hc]
      rw [hstep, ih]
      constructor
      · rintro ⟨e, he, hp⟩
        exact ⟨e, List.mem_cons_of_mem _ he, hp⟩
      · rintro ⟨e, he, hp⟩
        rcases List.mem_cons.mp he with hed | her
        · exact absurd (hed ▸ hp.1) hc
        · exact ⟨e, her, hp⟩

theorem bfsScan_snd_mem (t : PyTree) (newps seen : List String) :
    ∀ (cs : List String) (e : String × List String),
      e ∈ (bfsScan t newps seen cs).2 → e.1 ∈ cs ∧ e.1 ∉ seen := by
  intro cs
  induction cs with
  | nil => intro e he; simp [bfsScan] at he
  | cons d ds ih =>
    intro e he
    by_cases hc : docTypeOf t d = "Collection"
    · by_cases hm : d ∈ newps ∨ d ∈ seen
      · rw [show (bfsScan t newps seen (d :: ds)).2 = (bfsScan t newps seen ds).2 by
          simp [bfsScan, hc, hm]] at he
        have := ih e he
        exact ⟨List.mem_cons_of_mem _ this.1, this.2⟩
      · push_neg at hm
        rw [show (bfsScan t newps seen (d :: ds)).2
              = (d, newps) :: (bfsScan t newps seen ds).2 by
          simp [bfsScan, hc, hm.1, hm.2]] at he
        rcases List.mem_cons.mp he with hed | her
        · rw [hed]
          exact ⟨List.mem_cons_self d ds, hm.2⟩
        · have := ih e her
          exact ⟨List.mem_cons_of_mem _ this.1, this.2⟩
    · rw [show (bfsScan t newps seen (d :: ds)).2 = (bfsScan t newps seen ds).2 by
        simp [bfsScan, hc]] at he
      have := ih e he
      exact ⟨List.mem_cons_of_mem _ this.1, this.2⟩

/-- C10: in depth-first mode, whenever the traversal of a node encounters a
child id whose Record-Model kind is `Collection` and which is neither among
the current ancestors nor already seen, `_traverse_dfs` raises an
`AttributeError` (the `_traverse_helper` it invokes is not defined) instead
of yielding that child's subtree; conversely, the node's traversal completes
without that error exactly when no such descent is ever attempted. -/
theorem c10_dfs_descent_raises (t : PyTree) (skip : Option Int) (seen : List String)
    (id_ : String) (ps : List String) :
    (traverseDfsNode t skip seen id_ ps).2.2 = some Err.attr ↔
      (skipCut skip ps.length = false ∧
        ∃ node, lookupList t.nodes id_ = some node ∧
          ∃ d ∈ node.children, docTypeOf t d = "Collection" ∧
            d ∉ ps ++ [id_] ∧ d ∉ insertId seen id_) := by
  by_cases hcut : skipCut skip ps.length
  · simp [traverseDfsNode, hcut]
  · cases hl : lookupList t.nodes id_ with
    | none => simp [traverseDfsNode, hcut, hl]
    | some node =>
      have hstep : (traverseDfsNode t skip seen id_ ps).2.2
          = (dfsScan t (ps ++ [id_]) (insertId seen id_) node.children).2 := by
        simp [traverseDfsNode, hcut, hl]
      rw [hstep, dfsScan_err_iff]
      simp [hl, hcut]

theorem bfsAux_step_isSome (t : PyTree) (n : Nat) (id_ : String) (ps : List String)
    (rest : List (String × List String)) (seen : List String) (node : TNode)
    (hl : lookupList t.nodes id_ = some node)
    (h : (bfsAux t n (rest ++ (bfsScan t (ps ++ [id_]) (insertId seen id_) node.children).2)
            (insertId seen id_)).isSome) :
    (bfsAux t (n + 1) ((id_, ps) :: rest) seen).isSome := by
  rw [Option.isSome_iff_exists] at h
  obtain ⟨r, hr⟩ := h
  obtain ⟨outs, er⟩ := r
  simp only [bfsAux, hl]
  rw [hr]
  simp

theorem measA_insert_lt (U : Finset String) (seen : List String) (id_ : String)
    (hid : id_ ∈ U) (hns : id_ ∉ seen) :
    (U \ (insertId seen id_).toFinset).card < (U \ seen.toFinset).card := by
  have hmem : id_ ∈ U \ seen.toFinset :=
    Finset.mem_sdiff.mpr ⟨hid, fun hc => hns (List.mem_toFinset.mp hc)⟩
  simp only [insertId, if_neg hns, List.toFinset_cons, Finset.sdiff_insert]
  rw [Finset.card_erase_of_mem hmem]
  have hpos : 0 < (U \ seen.toFinset).card := Finset.card_pos.mpr ⟨id_, hmem⟩
  omega

theorem bfs_inner (t : PyTree) (U : Finset String)
    (HN : ∀ id_ node, lookupList t.nodes id_ = some node → ∀ c ∈ node.children, c ∈ U)
    (a : Nat)
    (IH : ∀ (q : List (String × List String)) (seen : List String),
      (∀ e ∈ q, e.1 ∈ U) → (U \ seen.toFinset).card + 1 ≤ a →
      ∃ n, (bfsAux t n q seen).isSome) :
    ∀ (b : Nat) (q : List (String × List String)) (seen : List String),
      (∀ e ∈ q, e.1 ∈ U) → (U \ seen.toFinset).card ≤ a →
      (q.filter (fun e => decide (e.1 ∈ seen))).length ≤ b →
      ∃ n, (bfsAux t n q seen).isSome := by
  intro b
  induction b with
  | zero =>
    intro q seen hq hA hB
    match q with
    | [] => exact ⟨1, by simp [bfsAux]⟩
    | (id_, ps) :: rest =>
      cases hl : lookupList t.nodes id_ with
      | none => exact ⟨1, by simp [bfsAux, hl]⟩
      | some node =>
        by_cases hs : id_ ∈ seen
        · exfalso
          have : (((id_, ps) :: rest).filter (fun e => decide (e.1 ∈ seen))).length
              = (rest.filter (fun e => decide (e.1 ∈ seen))).length + 1 := by
            simp [List.filter_cons, hs]
          omega
        · have hid : id_ ∈ U := hq (id_, ps) (List.mem_cons_self _ _)
          have hlt := measA_insert_lt U seen id_ hid hs
          have hinv : ∀ e ∈ rest ++ (bfsScan t (ps ++ [id_]) (insertId seen id_)
              node.children).2, e.1 ∈ U := by
            intro e he
            rcases List.mem_append.mp he with h1 | h2
            · exact hq e (List.mem_cons_of_mem _ h1)
            · exact HN id_ node hl e.1 (bfsScan_snd_mem t _ _ node.children e h2).1
          obtain ⟨n, hn⟩ := IH _ (insertId seen id_) hinv (by omega)
          exact ⟨n + 1, bfsAux_step_isSome t n id_ ps rest seen node hl hn⟩
  | succ b ihb =>
    intro q seen hq hA hB
    match q with
    | [] => exact ⟨1, by simp [bfsAux]⟩
    | (id_, ps) :: rest =>
      cases hl : lookupList t.nodes id_ with
      | none => exact ⟨1, by simp [bfsAux, hl]⟩
      | some node =>
        have hinv : ∀ e ∈ rest ++ (bfsScan t (ps ++ [id_]) (insertId seen id_)
            node.children).2, e.1 ∈ U := by
          intro e he
          rcases List.mem_append.mp he with h1 | h2
          · exact hq e (List.mem_cons_of_mem _ h1)
          · exact HN id_ node hl e.1 (bfsScan_snd_mem t _ _ node.children e h2).1
        by_cases hs : id_ ∈ seen
        · have hseen : insertId seen id_ = seen := by simp [insertId, hs]
          have hflt : ((rest ++ (bfsScan t (ps ++ [id_]) (insertId seen id_)
              node.children).2).filter (fun e => decide (e.1 ∈ seen))).length ≤ b := by
            rw [List.filter_append]
            have hnil : ((bfsScan t (ps ++ [id_]) (insertId seen id_)
                node.children).2).filter (fun e => decide (e.1 ∈ seen)) = [] := by
              rw [List.filter_eq_nil_iff]
              intro e he
              have := (bfsScan_snd_mem t _ _ node.children e he).2
              rw [hseen] at this
              simpa using this
            rw [hnil]
            have hhd : (((id_, ps) :: rest).filter (fun e => decide (e.1 ∈ seen))).length
                = (rest.filter (fun e => decide (e.1 ∈ seen))).length + 1 := by
              simp [List.filter_cons, hs]
            simp only [List.length_append, List.length_nil]
            omega
          have hA2 : (U \ (insertId seen id_).toFinset).card ≤ a := by rw [hseen]; exact hA
          obtain ⟨n, hn⟩ := by
            have := ihb _ (insertId seen id_) hinv hA2 ?_
            · exact this
            · rw [hseen] at hflt ⊢
              exact hflt
          exact ⟨n + 1, bfsAux_step_isSome t n id_ ps rest seen node hl hn⟩
        · have hid : id_ ∈ U := hq (id_, ps) (List.mem_cons_self _ _)
          have hlt := measA_insert_lt U seen id_ hid hs
          obtain ⟨n, hn⟩ := IH _ (insertId seen id_) hinv (by omega)
          exact ⟨n + 1, bfsAux_step_isSome t n id_ ps rest seen node hl hn⟩

theorem bfs_outer (t : PyTree) (U : Finset String)
    (HN : ∀ id_ node, lookupList t.nodes id_ = some node → ∀ c ∈ node.children, c ∈ U) :
    ∀ (a : Nat) (q : List (String × List String)) (seen : List String),
      (∀ e ∈ q, e.1 ∈ U) → (U \ seen.toFinset).card ≤ a →
      ∃ n, (bfsAux t n q seen).isSome := by
  intro a
  induction a with
  | zero =>
    intro q seen hq hA
    exact bfs_inner t U HN 0
      (fun q' seen' _ h2 => absurd h2 (by omega))
      ((q.filter (fun e => decide (e.1 ∈ seen))).length) q seen hq hA le_rfl
  | succ a iha =>
    intro q seen hq hA
    exact bfs_inner t U HN (a + 1)
      (fun q' seen' hinv h2 => iha q' seen' hinv (by omega))
      ((q.filter (fun e => decide (e.1 ∈ seen))).length) q seen hq hA le_rfl

theorem bfsAux_terminates (t : PyTree) (q : List (String × List String)) :
    ∃ n, (bfsAux t n q []).isSome := by
  let U : Finset String :=
    ((t.nodes.map (fun p => p.2.children)).flatten ++ q.map Prod.fst).toFinset
  have HN : ∀ id_ node, lookupList t.nodes id_ = some node →
      ∀ c ∈ node.children, c ∈ U := by
    intro id_ node hl c hc
    have hmem : (id_, node) ∈ t.nodes := lookupList_mem hl
    have : c ∈ (t.nodes.map (fun p => p.2.children)).flatten :=
      List.mem_flatten.mpr ⟨node.children, List.mem_map.mpr ⟨(id_, node), hmem, rfl⟩, hc⟩
    exact List.mem_toFinset.mpr (List.mem_append.mpr (Or.inl this))
  have hq : ∀ e ∈ q, e.1 ∈ U := by
    intro e he
    exact List.mem_toFinset.mpr (List.mem_append.mpr (Or.inr (List.mem_map.mpr ⟨e, he, rfl⟩)))
  exact bfs_outer t U HN ((U \ ([] : List String).toFinset).card) q [] hq le_rfl

theorem walkTreeAux_walkCyc_none :
    ∀ (n level : Nat), walkTreeAux walkCyc n "Collection-A" level = none := by
  intro n
  induction n with
  | zero => intro level; rfl
  | succ n ih =>
    intro level
    simp only [walkTreeAux]
    rw [show lookupList walkCyc "Collection-A"
          = some { parent := none, title := "", children := ["Collection-A"] } from rfl]
    simp only [List.foldl]
    rw [show strStartsWith "Collection-A" "Collection" = true from rfl]
    simp [ih (level + 1)]

/-- C1 (amended): on arbitrary (possibly cyclic) child-reference graphs the
breadth-first traversal of `TreeWalker` terminates — the work loop drains in
finitely many steps for every tree, depth limit and start list — while the
recursive `walk_tree` of `dump.py`, which has no cycle guard, fails to
complete on a cyclic collection graph at every recursion-depth budget.
(The depth-first arm is settled separately: its descent raises, see the
C10 theorem; and a multiply-referenced collection may be expanded more than
once in bfs, see the C1 counterexample.) -/
theorem c1_traversal_termination :
    (∀ (t : PyTree) (skip : Option Int) (ids : List String),
        ∃ n, (traverseBfs t skip ids n).isSome) ∧
    (∀ (n level : Nat), walkTreeAux walkCyc n "Collection-A" level = none) := by
  constructor
  · intro t skip ids
    obtain ⟨n, hn⟩ := bfsAux_terminates t (ids.map (fun i => (i, [])))
    refine ⟨n, ?_⟩
    rw [Option.isSome_iff_exists] at hn
    obtain ⟨r, hr⟩ := hn
    obtain ⟨outs, er⟩ := r
    simp [traverseBfs, hr]
  · exact walkTreeAux_walkCyc_none

/-- C1 counterexample: on the tree built from `c1Docs`, where `Collection-C`
is a child of the two root collections, breadth-first traversal enqueues
`Collection-C` twice before its first expansion and therefore expands it
twice — its child `Document-D` is yielded once per expansion — refuting
"each collection id is expanded at most once process-wide". -/
theorem c1_counterexample :
    buildTree c1Docs = .ok c1Tree ∧
    traverseBfs c1Tree none c1Tree.roots 10 =
      some ([("Collection-P1", []), ("Collection-P2", []),
             ("Collection-C", ["Collection-P1"]), ("Collection-C", ["Collection-P2"]),
             ("Document-D", ["Collection-P1", "Collection-C"]),
             ("Document-D", ["Collection-P2", "Collection-C"])], none) ∧
    (([("Collection-P1", ([] : List String)), ("Collection-P2", []),
       ("Collection-C", ["Collection-P1"]), ("Collection-C", ["Collection-P2"]),
       ("Document-D", ["Collection-P1", "Collection-C"]),
       ("Document-D", ["Collection-P2", "Collection-C"])].filter
        (fun e => e.1 = "Document-D")).length = 2) := by
  exact ⟨rfl, rfl, by decide⟩

/-- C2: the depth limit is not enforced as claimed. On the chain
`Collection-R → Collection-C → Document-D` with `skip_level = 1`, the bfs
arm (which `main` uses) never consults `skip_level` and yields `Document-D`
at ancestor-depth 2, and the dfs arm yields only the root before its descent
raises (the boundary node is suppressed by the guard before its yield, not
yielded). -/
theorem c2_depth_limit_not_enforced :
    buildTree c2Docs = .ok c2Tree ∧
    traverseBfs c2Tree (some 1) c2Tree.roots 10 =
      some ([("Collection-R", []), ("Collection-C", ["Collection-R"]),
             ("Document-D", ["Collection-R", "Collection-C"])], none) ∧
    traverseDfsRoots c2Tree (some 1) [] c2Tree.roots =
      ([("Collection-R", [])], ["Collection-R"], some Err.attr) := by
  exact ⟨rfl, rfl, by decide⟩

/-- C3 counterexample: under sort policy `TitleReversed`, the collection with
children `[d2("Banana"), d1("Apple"), d3(unresolvable)]` is reordered to
`[d3, d2, d1]` — the unresolvable child sorts *first*, because the 2-tuple
key `(1, '')` is the largest under the descending order — refuting the
claimed result `[d2, d1, d3]`. -/
theorem c3_counterexample :
    (buildTree c3RevDocs).map (fun t => lookupList t.nodes "Collection-1") =
      .ok (some { children := ["Document-3", "Document-2", "Document-1"], parent := none }) ∧
    ¬ ((buildTree c3RevDocs).map (fun t => lookupList t.nodes "Collection-1") =
      .ok (some { children := ["Document-2", "Document-1", "Document-3"], parent := none })) := by
  refine ⟨rfl, fun h => ?_⟩
  rw [show (buildTree c3RevDocs).map (fun t => lookupList t.nodes "Collection-1")
        = .ok (some { children := ["Document-3", "Document-2", "Document-1"],
                      parent := none }) from rfl] at h
  simp at h

/-- C3 (amended): `Title` reorders a collection's child list stably ascending
by the referenced record's title with unresolvable ids collating last, and
`TitleReversed` uses the same key descending, which places unresolvable ids
first: the example children `[d2("Banana"), d1("Apple"), d3(unresolvable)]`
yield `[d1, d2, d3]` under `Title` and `[d3, d2, d1]` under `TitleReversed`.
In general the applied reordering is a permutation of the child list that is
sorted (pairwise) with respect to the 2-tuple key order, in the respective
direction. -/
theorem c3_sort_policies :
    ((buildTree c3TitleDocs).map (fun t => lookupList t.nodes "Collection-1") =
      .ok (some { children := ["Document-1", "Document-2", "Document-3"], parent := none })) ∧
    ((buildTree c3RevDocs).map (fun t => lookupList t.nodes "Collection-1") =
      .ok (some { children := ["Document-3", "Document-2", "Document-1"], parent := none })) ∧
    (∀ (documents : List (String × PyDoc)) (l : List String),
      (stableSort (fun x y => keyLeB (sortKey documents x) (sortKey documents y)) l).Perm l ∧
      (stableSort (fun x y => keyLeB (sortKey documents x) (sortKey documents y)) l).Pairwise
        (fun x y => keyLeB (sortKey documents x) (sortKey documents y) = true) ∧
      (stableSort (fun x y => keyLeB (sortKey documents y) (sortKey documents x)) l).Perm l ∧
      (stableSort (fun x y => keyLeB (sortKey documents y) (sortKey documents x)) l).Pairwise
        (fun x y => keyLeB (sortKey documents y) (sortKey documents x) = true)) := by
  refine ⟨rfl, rfl, ?_⟩
  intro documents l
  refine ⟨stableSort_perm _ l, ?_, stableSort_perm _ l, ?_⟩
  · exact stableSort_pairwise _
      (fun a b h => keyLeB_total (sortKey documents a) (sortKey documents b) h)
      (fun a b c h1 h2 => keyLeB_trans _ _ _ h1 h2) l
  · exact stableSort_pairwise _
      (fun a b h => keyLeB_total (sortKey documents b) (sortKey documents a) h)
      (fun a b c h1 h2 => keyLeB_trans _ _ _ h2 h1) l

/-- C4 counterexample: building the tree from `c4Docs`, where `Collection-X`
is declared a child of `Collection-A` and later assigned to `Collection-B`,
leaves `Collection-X` in `Collection-A`'s child list while the parent
back-reference points at `Collection-B` — refuting "removes X from any
competing child listing". -/
theorem c4_counterexample :
    (buildTree c4Docs).map (fun t => lookupList t.nodes "Collection-A") =
      .ok (some { children := ["Collection-X"], parent := none }) ∧
    (buildTree c4Docs).map (fun t => lookupList t.nodes "Collection-X") =
      .ok (some { children := [], parent := some "Collection-B" }) := by
  exact ⟨rfl, rfl⟩

/-- C4 (amended): assigning a second parent to a known child overwrites the
child's parent back-reference and removes it from the root set, but does not
remove it from any other node's child listing — every node other than the
child and the new parent keeps its entry unchanged. -/
theorem c4_parent_overwrite (t t' : PyTree) (p c q : String) (cnode pnode nq : TNode)
    (h1 : lookupList t.nodes c = some cnode)
    (h2 : lookupList t.nodes p = some pnode)
    (h3 : c ≠ p)
    (h4 : setParent t p c = .ok t')
    (h5 : q ≠ c) (h6 : q ≠ p)
    (h7 : lookupList t.nodes q = some nq) :
    lookupList t'.nodes c = some { cnode with parent := some p } ∧
    c ∉ t'.roots ∧
    lookupList t'.nodes q = some nq := by
  set pn2 : TNode := { pnode with children := if pnode.children ≠ [] then addChildrenList pnode.children [c] else pnode.children ++ [c] } with hpn2
  have hadd : addChildren t p [c] = .ok { t with nodes := updList t.nodes p pn2 } := by
    simp [addChildren, h2, hpn2]
  have hl1 : lookupList (updList t.nodes p pn2) c = some cnode := by
    rw [lookupList_updList_ne _ _ _ _ (Ne.symm h3)]
    exact h1
  have hsp : setParent t p c = .ok { nodes := updList (updList t.nodes p pn2) c { cnode with parent := some p }, roots := rootsDiscard t.roots c, documents := t.documents } := by
    simp [setParent, h1, hadd, hl1]
  rw [hsp] at h4
  have ht' := Except.ok.inj h4
  subst ht'
  refine ⟨?_, not_mem_rootsDiscard t.roots c, ?_⟩
  · exact lookupList_updList_self _ _ _
  · rw [lookupList_updList_ne _ _ _ _ (Ne.symm h5), lookupList_updList_ne _ _ _ _ (Ne.symm h6)]
    exact h7

/-- Witness for the amended C4 theorem on `c4WitTree`: re-parenting
`Collection-X` under `Collection-B` updates the back-reference, keeps X out
of the roots, and leaves `Collection-A`'s listing (which still contains X)
untouched. -/
theorem c4_parent_overwrite_witness :
    (lookupList c4WitTree.nodes "Collection-X"
        = some { children := [], parent := some "Collection-A" } ∧
     lookupList c4WitTree.nodes "Collection-B" = some { children := [], parent := none } ∧
     "Collection-X" ≠ "Collection-B" ∧
     setParent c4WitTree "Collection-B" "Collection-X" = .ok c4WitTree' ∧
     "Collection-A" ≠ "Collection-X" ∧ "Collection-A" ≠ "Collection-B" ∧
     lookupList c4WitTree.nodes "Collection-A"
        = some { children := ["Collection-X"], parent := none }) ∧
    (lookupList c4WitTree'.nodes "Collection-X"
        = some { children := [], parent := some "Collection-B" } ∧
     "Collection-X" ∉ c4WitTree'.roots ∧
     lookupList c4WitTree'.nodes "Collection-A"
        = some { children := ["Collection-X"], parent := none }) := by
  refine ⟨⟨rfl, rfl, by decide, rfl, by decide, by decide, rfl⟩, ?_⟩
  exact c4_parent_overwrite c4WitTree c4WitTree' "Collection-B" "Collection-X" "Collection-A"
    { children := [], parent := some "Collection-A" } { children := [], parent := none }
    { children := ["Collection-X"], parent := none }
    rfl rfl (by decide) rfl (by decide) (by decide) rfl

/-- C5 counterexample: `build_tree` on a collection whose declared children
sequence is `[Document-1, Document-1]` installs the duplicates verbatim (the
empty-list branch of `add_children` extends without deduplication), so the
child list contains the same id twice. -/
theorem c5_counterexample :
    (buildTree c5Docs).map (fun t => lookupList t.nodes "Collection-1") =
      .ok (some { children := ["Document-1", "Document-1"], parent := none }) ∧
    ¬ (["Document-1", "Document-1"] : List String).Nodup := by
  exact ⟨rfl, by decide⟩

/-- C5 (amended): insertion into a node that already has children is
idempotent — with a duplicate-free existing child list the result is again
duplicate-free, whatever the candidate sequence (each candidate is appended
only if absent) — but a node whose child list is empty receives the declared
children verbatim, so duplicates inside a collection's own declared children
survive (see the C5 counterexample). -/
theorem c5_add_children_idempotent (t t' : PyTree) (id_ : String) (cs : List String)
    (node : TNode)
    (h1 : lookupList t.nodes id_ = some node)
    (h2 : node.children ≠ [])
    (h3 : node.children.Nodup)
    (h4 : addChildren t id_ cs = .ok t') :
    lookupList t'.nodes id_ = some { node with children := addChildrenList node.children cs } ∧
    (addChildrenList node.children cs).Nodup := by
  simp only [addChildren, h1] at h4
  rw [if_pos h2] at h4
  have ht' := Except.ok.inj h4
  subst ht'
  exact ⟨lookupList_updList_self _ _ _, addChildrenList_nodup cs node.children h3⟩

/-- Witness for the amended C5 theorem on `c5WitTree`: adding
`[Document-A, Document-B, Document-A]` to the non-empty child list
`[Document-A]` yields the duplicate-free `[Document-A, Document-B]`. -/
theorem c5_add_children_witness :
    (lookupList c5WitTree.nodes "Collection-1"
        = some { children := ["Document-A"], parent := none } ∧
     (["Document-A"] : List String) ≠ [] ∧
     (["Document-A"] : List String).Nodup ∧
     addChildren c5WitTree "Collection-1" ["Document-A", "Document-B", "Document-A"]
        = .ok c5WitTree') ∧
    (lookupList c5WitTree'.nodes "Collection-1"
        = some { children := ["Document-A", "Document-B"], parent := none } ∧
     (["Document-A", "Document-B"] : List String).Nodup) := by
  refine ⟨⟨rfl, by decide, by decide, rfl⟩, ?_⟩
  exact c5_add_children_idempotent c5WitTree c5WitTree' "Collection-1"
    ["Document-A", "Document-B", "Document-A"] { children := ["Document-A"], parent := none }
    rfl (by decide) (by decide) rfl

theorem docDetailed_fields (pd : String → Option Int) (e : Element) (id_ : String)
    (ow : Option String) (pv : Bool) (k : String) (v : PyDoc)
    (h : docDetailed pd e id_ ow pv = .ok (some (k, v))) :
    k = id_ ∧ v.type_ = "Document" ∧ v.owner = some ow ∧ v.private_ = some pv := by
  simp only [docDetailed] at h
  repeat' (first
    | (exact Except.noConfusion h)
    | split at h)
  all_goals
    (rw [Except.ok.injEq, Option.some.injEq, Prod.mk.injEq] at h
     obtain ⟨hk, hvv⟩ := h
     subst hvv
     exact ⟨hk.symm, rfl, rfl, rfl⟩)

theorem colBranch_fields (pd : String → Option Int) (e : Element) (id_ : String)
    (ow : Option String) (pv : Bool) (k : String) (v : PyDoc)
    (h : colBranch pd e id_ ow pv = .ok (some (k, v))) :
    k = id_ ∧ v.type_ = "Collection" ∧ v.owner = some ow ∧ v.private_ = some pv := by
  simp only [colBranch] at h
  repeat' (first
    | (exact Except.noConfusion h)
    | split at h)
  all_goals
    (rw [Except.ok.injEq, Option.some.injEq, Prod.mk.injEq] at h
     obtain ⟨hk, hvv⟩ := h
     subst hvv
     exact ⟨hk.symm, rfl, rfl, rfl⟩)

theorem userBranch_fields (e : Element) (k : String) (v : PyDoc)
    (h : userBranch e = .ok (some (k, v))) :
    k = e.handle ∧ v.type_ = "User" ∧ v.private_ = none := by
  simp only [userBranch] at h
  repeat' (first
    | (exact Except.noConfusion h)
    | split at h)
  all_goals
    (rw [Except.ok.injEq, Option.some.injEq, Prod.mk.injEq] at h
     obtain ⟨hk, hvv⟩ := h
     subst hvv
     exact ⟨hk.symm, rfl, rfl⟩)

theorem urlBranch_fields (e : Element) (id_ : String) (ow : Option String) (pv : Bool)
    (details : Bool) (k : String) (v : PyDoc)
    (h : urlBranch e id_ ow pv details = .ok (some (k, v))) :
    k = id_ ∧ v.type_ = "URL" ∧ (v.private_ = none ∨ v.private_ = some pv) ∧
      (details = true → (urlTitleUrl e id_).2 ≠ "") := by
  simp only [urlBranch] at h
  split at h
  · rename_i hdet
    rw [Except.ok.injEq, Option.some.injEq, Prod.mk.injEq] at h
    obtain ⟨hk, hvv⟩ := h
    subst hvv
    refine ⟨hk.symm, rfl, Or.inl rfl, fun hd => ?_⟩
    rw [hd] at hdet
    exact absurd hdet (by simp)
  · split at h
    · exact Option.noConfusion (Except.ok.inj h)
    · rename_i hu
      rw [Except.ok.injEq, Option.some.injEq, Prod.mk.injEq] at h
      obtain ⟨hk, hvv⟩ := h
      subst hvv
      exact ⟨hk.symm, rfl, Or.inr rfl, fun _ => hu⟩

theorem docsOfElement_master (pd : String → Option Int) (details : Bool) (e : Element)
    (k : String) (v : PyDoc)
    (h : docsOfElement pd details e = .ok (some (k, v))) :
    k = e.handle ∧
    (∀ b, v.private_ = some b → ∃ l, e.acls = some l ∧ b = derivePrivate l) ∧
    (details = true → v.type_ = "Document" → v.owner.isSome ∧ v.private_.isSome) ∧
    (details = true → e.classname = some "URL" → (urlTitleUrl e e.handle).2 ≠ "") := by
  simp only [docsOfElement] at h
  split at h
  · exact Option.noConfusion (Except.ok.inj h)
  · rename_i ty hty
    split at h
    · rename_i htriple
      split at h
      · exact Except.noConfusion h
      · rename_i l hacl
        split at h
        · rename_i hd
          split at h
          · rename_i hdetf
            rw [Except.ok.injEq, Option.some.injEq, Prod.mk.injEq] at h
            obtain ⟨hk, hvv⟩ := h
            subst hvv
            have hdf : details = false := by
              cases details with
              | false => rfl
              | true => exact absurd hdetf (by simp)
            refine ⟨hk.symm, ?_, ?_, ?_⟩
            · intro b hb
              exact absurd hb (by simp)
            · intro hdt
              rw [hdt] at hdf
              exact absurd hdf (by simp)
            · intro hdt
              rw [hdt] at hdf
              exact absurd hdf (by simp)
          · have hf := docDetailed_fields pd e e.handle (ownerOf e) (derivePrivate l) k v h
            refine ⟨hf.1, ?_, ?_, ?_⟩
            · intro b hb
              rw [hf.2.2.2] at hb
              exact ⟨l, hacl, (Option.some.inj hb).symm⟩
            · intro _ _
              rw [hf.2.2.1, hf.2.2.2]
              exact ⟨rfl, rfl⟩
            · intro _ hurl
              rw [hty] at hurl
              have : ty = "URL" := Option.some.inj hurl
              rw [this] at hd
              exact absurd hd (by decide)
        · rename_i hd
          split at h
          · rename_i hcol
            have hf := colBranch_fields pd e e.handle (ownerOf e) (derivePrivate l) k v h
            refine ⟨hf.1, ?_, ?_, ?_⟩
            · intro b hb
              rw [hf.2.2.2] at hb
              exact ⟨l, hacl, (Option.some.inj hb).symm⟩
            · intro _ ht
              rw [hf.2.1] at ht
              exact absurd ht (by decide)
            · intro _ hurl
              rw [hty] at hurl
              have : ty = "URL" := Option.some.inj hurl
              rw [this] at hcol
              exact absurd hcol (by decide)
          · have hf := urlBranch_fields e e.handle (ownerOf e) (derivePrivate l) details k v h
            refine ⟨hf.1, ?_, ?_, ?_⟩
            · intro b hb
              rcases hf.2.2.1 with hn | hs
              · rw [hn] at hb
                exact absurd hb (by simp)
              · rw [hs] at hb
                exact ⟨l, hacl, (Option.some.inj hb).symm⟩
            · intro _ ht
              rw [hf.2.1] at ht
              exact absurd ht (by decide)
            · intro hdt _
              exact hf.2.2.2 hdt
    · rename_i htriple
      split at h
      · rename_i hu
        have hf := userBranch_fields e k v h
        refine ⟨hf.1, ?_, ?_, ?_⟩
        · intro b hb
          rw [hf.2.2] at hb
          exact absurd hb (by simp)
        · intro _ ht
          rw [hf.2.1] at ht
          exact absurd ht (by decide)
        · intro _ hurl
          rw [hty] at hurl
          have hyu : ty = "URL" := Option.some.inj hurl
          rw [hyu] at htriple
          simp at htriple
      · rename_i hu
        split at h
        · rename_i hig
          rw [Except.ok.injEq, Option.some.injEq, Prod.mk.injEq] at h
          obtain ⟨hk, hvv⟩ := h
          subst hvv
          refine ⟨hk.symm, ?_, ?_, ?_⟩
          · intro b hb
            exact absurd hb (by simp)
          · intro _ ht
            simp only at ht
            rw [ht] at htriple
            simp at htriple
          · intro _ hurl
            rw [hty] at hurl
            have hyu : ty = "URL" := Option.some.inj hurl
            rw [hyu] at htriple
            simp at htriple
        · exact Except.noConfusion h

theorem mem_updList {α : Type} :
    ∀ (l : List (String × α)) (k : String) (v : α) (kv : String × α),
      kv ∈ updList l k v → kv ∈ l ∨ kv = (k, v) := by
  intro l
  induction l with
  | nil =>
    intro k v kv h
    simp [updList] at h
    exact Or.inr h
  | cons p rest ih =>
    intro k v kv h
    obtain ⟨k0, v0⟩ := p
    by_cases hk : k0 = k
    · rw [show updList ((k0, v0) :: rest) k v = (k, v) :: rest by simp [updList, hk]] at h
      rcases List.mem_cons.mp h with h1 | h2
      · exact Or.inr h1
      · exact Or.inl (List.mem_cons_of_mem _ h2)
    · rw [show updList ((k0, v0) :: rest) k v = (k0, v0) :: updList rest k v by
        simp [updList, hk]] at h
      rcases List.mem_cons.mp h with h1 | h2
      · exact Or.inl (h1 ▸ List.mem_cons_self _ _)
      · rcases ih k v kv h2 with h3 | h4
        · exact Or.inl (List.mem_cons_of_mem _ h3)
        · exact Or.inr h4

theorem getDocsAux_document_fields (pd : String → Option Int) :
    ∀ (es : List Element) (acc docs : List (String × PyDoc)),
      (∀ kv ∈ acc, kv.2.type_ = "Document" → kv.2.owner.isSome ∧ kv.2.private_.isSome) →
      getDocsAux pd true acc es = .ok docs →
      ∀ kv ∈ docs, kv.2.type_ = "Document" → kv.2.owner.isSome ∧ kv.2.private_.isSome := by
  intro es
  induction es with
  | nil =>
    intro acc docs hacc hg
    simp only [getDocsAux] at hg
    rw [← Except.ok.inj hg]
    exact hacc
  | cons e es ih =>
    intro acc docs hacc hg
    simp only [getDocsAux] at hg
    split at hg
    · exact Except.noConfusion hg
    · exact ih acc docs hacc hg
    · rename_i k0 v0 heq
      apply ih (updList acc k0 v0) docs ?_ hg
      intro kv hkv ht
      rcases mem_updList acc k0 v0 kv hkv with h1 | h2
      · exact hacc kv h1 ht
      · have hm := docsOfElement_master pd true e k0 v0 heq
        rw [h2] at ht ⊢
        exact hm.2.2.1 rfl ht

theorem getDocsAux_url_absent (pd : String → Option Int) (h : String) :
    ∀ (es : List Element) (acc docs : List (String × PyDoc)),
      (∀ e ∈ es, e.handle = h → e.classname = some "URL" ∧ (urlTitleUrl e e.handle).2 = "") →
      lookupList acc h = none →
      getDocsAux pd true acc es = .ok docs → lookupList docs h = none := by
  intro es
  induction es with
  | nil =>
    intro acc docs _ hacc hg
    simp only [getDocsAux] at hg
    rw [← Except.ok.inj hg]
    exact hacc
  | cons e es ih =>
    intro acc docs H hacc hg
    simp only [getDocsAux] at hg
    split at hg
    · exact Except.noConfusion hg
    · exact ih acc docs (fun e2 he2 => H e2 (List.mem_cons_of_mem _ he2)) hacc hg
    · rename_i k0 v0 heq
      have hm := docsOfElement_master pd true e k0 v0 heq
      by_cases hh : e.handle = h
      · exact absurd (H e (List.mem_cons_self e es) hh).2
          (hm.2.2.2 rfl (H e (List.mem_cons_self e es) hh).1)
      · apply ih (updList acc k0 v0) docs (fun e2 he2 => H e2 (List.mem_cons_of_mem _ he2)) ?_ hg
        rw [lookupList_updList_ne acc k0 h v0 (by rw [hm.1]; exact hh)]
        exact hacc

/-- C6: when a summary Document record is replaced by the batch-fetched
detailed record, the replacement in `main.parallel` is keyed by id — the
yielded record is exactly the detailed extraction's entry for that id — and
the detailed extraction always equips a Document record with its `owner` and
`private` fields (recomputed from the scoped pass), so the replacement never
loses them, even though the summary record stored only the type. -/
theorem c6_detail_replacement (pd : String → Option Int) (elems : List Element)
    (nd documents : List (String × PyDoc)) (id_ : String) (d doc0 : PyDoc)
    (h0 : lookupList documents id_ = some doc0)
    (h1 : doc0.type_ = "Document")
    (h2 : getDocuments pd true elems = .ok nd)
    (h3 : lookupList nd id_ = some d)
    (h4 : d.type_ = "Document") :
    itemDoc documents nd true id_ = .ok (some (d, true)) ∧
    d.owner.isSome ∧ d.private_.isSome := by
  constructor
  · simp [itemDoc, h0, h1, h3, IGNORE_DOC_TYPES]
  · exact getDocsAux_document_fields pd elems [] nd (by simp) h2 (id_, d)
      (lookupList_mem h3) h4

/-- Witness for the C6 theorem: summary record `{type: Document}` for
`Document-1`, detailed pass parsing `c6Elem` into `c6Doc`; the replacement
yields `c6Doc` (keyed by id) and `c6Doc` carries `owner` and `private`. -/
theorem c6_detail_replacement_witness :
    (lookupList [("Document-1", c6Summary)] "Document-1" = some c6Summary ∧
     getDocuments (fun _ => none) true [c6Elem] = .ok [("Document-1", c6Doc)] ∧
     lookupList [("Document-1", c6Doc)] "Document-1" = some c6Doc ∧
     c6Doc.type_ = "Document") ∧
    (itemDoc [("Document-1", c6Summary)] [("Document-1", c6Doc)] true "Document-1"
        = .ok (some (c6Doc, true)) ∧
     c6Doc.owner.isSome ∧ c6Doc.private_.isSome) := by
  refine ⟨⟨rfl, rfl, rfl, rfl⟩, ?_⟩
  exact c6_detail_replacement (fun _ => none) [c6Elem] [("Document-1", c6Doc)]
    [("Document-1", c6Summary)] "Document-1" c6Doc c6Summary rfl rfl rfl rfl rfl

/-- C7: a URL element whose derived url is empty (or whose url property is
missing) contributes no record to the detailed Record Model: if every
element carrying a handle is such a URL element, the extracted model has no
entry under that handle at all. -/
theorem c7_empty_url_dropped (pd : String → Option Int) (elems : List Element)
    (h : String) (docs : List (String × PyDoc))
    (H : ∀ e ∈ elems, e.handle = h → e.classname = some "URL" ∧ (urlTitleUrl e e.handle).2 = "")
    (hg : getDocuments pd true elems = .ok docs) :
    lookupList docs h = none := by
  exact getDocsAux_url_absent pd h elems [] docs H rfl hg

/-- Witness for the C7 theorem: `c7Elem` is a URL element with no props, so
its derived url is empty, and the extracted model is empty. -/
theorem c7_empty_url_dropped_witness :
    (∀ e ∈ [c7Elem], e.handle = "URL-1" →
        e.classname = some "URL" ∧ (urlTitleUrl e e.handle).2 = "") ∧
    getDocuments (fun _ => none) true [c7Elem] = .ok [] ∧
    lookupList ([] : List (String × PyDoc)) "URL-1" = none := by
  refine ⟨?_, rfl, ?_⟩
  · intro e he _
    rw [List.mem_singleton.mp he]
    exact ⟨rfl, rfl⟩
  · exact c7_empty_url_dropped (fun _ => none) [c7Elem] "URL-1" []
      (by intro e he _; rw [List.mem_singleton.mp he]; exact ⟨rfl, rfl⟩) rfl

/-- C8: for every extracted record that carries a derived `private` flag
(Document, Collection or URL — the only kinds that store one), the flag is
`False` iff at least one entry of the element's ACL list grants `readobject`
to one of the public-like groups Group-4, Group-5, Group-7; with no such
grant the record is private. -/
theorem c8_visibility_derivation (pd : String → Option Int) (details : Bool) (e : Element)
    (k : String) (v : PyDoc) (b : Bool) (l : List Acl)
    (hacl : e.acls = some l)
    (h : docsOfElement pd details e = .ok (some (k, v)))
    (hp : v.private_ = some b) :
    (b = false ↔ ∃ a ∈ l,
      (a.principal = "Group-4" ∨ a.principal = "Group-5" ∨ a.principal = "Group-7") ∧
      readObjectIn a.permissions = true) := by
  obtain ⟨l2, hacl2, hb⟩ := (docsOfElement_master pd details e k v h).2.1 b hp
  rw [hacl] at hacl2
  have hll : l = l2 := Option.some.inj hacl2
  subst hll
  rw [hb]
  exact derivePrivate_eq_false_iff l

/-- Witness for the C8 theorem: `c8Elem`'s ACL grants `readobject` to
Group-5, and the extracted Collection record indeed has `private = False`,
with the ACL condition holding. -/
theorem c8_visibility_derivation_witness :
    (c8Elem.acls = some [c8Acl] ∧
     docsOfElement (fun _ => none) false c8Elem = .ok (some ("Collection-9", c8Doc)) ∧
     c8Doc.private_ = some false) ∧
    ((false = false) ↔ ∃ a ∈ [c8Acl],
      (a.principal = "Group-4" ∨ a.principal = "Group-5" ∨ a.principal = "Group-7") ∧
      readObjectIn a.permissions = true) := by
  refine ⟨⟨rfl, rfl, rfl⟩, ?_⟩
  exact c8_visibility_derivation (fun _ => none) false c8Elem "Collection-9" c8Doc false
    [c8Acl] rfl rfl rfl

/-- C9: whenever a batch invoked the external detailed retrieval (its
`doc_ids` list is non-empty), the batch's temporary workspace removal is the
last event of the batch's trace — it runs after the items are processed and
it runs for every consumer, including one whose processing of an item fails,
before the error propagates. -/
theorem c9_batch_cleanup (documents new_docs : List (String × PyDoc)) (output : Bool)
    (consume : String × List String × PyDoc × Bool → Except Err Unit)
    (batch : List (String × List String))
    (h : batchDocIds documents output batch ≠ []) :
    (processBatch documents new_docs output consume batch).1.getLast? = some BEvent.rmtree := by
  simp only [processBatch, if_pos h]
  exact List.getLast?_concat _

/-- Witness for the C9 theorem: a batch of one document item in output mode
whose consumer fails still ends its trace with the workspace removal. -/
theorem c9_batch_cleanup_witness :
    (batchDocIds [("Document-1", { type_ := "Document" })] true [("Document-1", [])] ≠ []) ∧
    (processBatch [("Document-1", { type_ := "Document" })]
        [("Document-1", { type_ := "Document", title := some "T" })] true
        (fun _ => .error Err.key) [("Document-1", [])]).1.getLast? = some BEvent.rmtree := by
  refine ⟨by decide, ?_⟩
  exact c9_batch_cleanup [("Document-1", { type_ := "Document" })]
    [("Document-1", { type_ := "Document", title := some "T" })] true
    (fun _ => .error Err.key) [("Document-1", [])] (by decide)
